import Mathlib

/-!
Verification development for the TruthSeeker Plus scanning server
(`src/server.py`).  The Python source is shallowly embedded: pure string
manipulation becomes functions on `List Char` / `String`, the SSE event
stream of a scan becomes a `List ScanEvent`, and the network / browser
environment is a parameter (a function producing each probe's outcome).
Machine integers do not occur (Python integers are unbounded, statuses and
lengths are naturals).
-/

namespace TruthSeeker

/-! ### Characters and decimal digits

The regex character class `[0-9]` (and `\d` over the ASCII alphabet we
model) holds exactly the code points 48..57. -/

/-- Decimal-digit test for the regex classes of line 79 of server.py
(`\d`, `[^0-9]`): code point between 48 (`0`) and 57 (`9`). -/
def isDig (c : Char) : Bool := decide (48 ≤ c.toNat) && decide (c.toNat ≤ 57)

/-- Numeric value of one digit character, as Python's `int` assigns it. -/
def digVal (c : Char) : Nat := c.toNat - 48

/-- Python `int(num_str)` on a string of decimal digits (line 87 of
server.py): left fold accumulating base-10 value. -/
def ofDigits (s : List Char) : Nat := s.foldl (fun a c => 10 * a + digVal c) 0

/-- Decimal representation of a natural number, big-endian, no sign, no
leading zeros (one `0` for zero) — the mathematical specification of
Python's `str(n)` for `n ≥ 0`.  `Nat.repr` is proved to agree with it
below. -/
def natDigits (n : Nat) : List Char :=
  if n < 10 then [Nat.digitChar n]
  else natDigits (n / 10) ++ [Nat.digitChar (n % 10)]
decreasing_by exact Nat.div_lt_self (by omega) (by omega)

/-- Python `str.zfill` on a sign-free string (line 187 etc. of server.py):
left-pad with `0` up to width `w`; a string already at least `w` long is
unchanged (truncated subtraction makes the pad empty). -/
def zfillL (s : List Char) (w : Nat) : List Char :=
  List.replicate (w - s.length) '0' ++ s

/-- Python `str(n).zfill(w)` as used to build every candidate identifier
(`str(cur_num).zfill(num_width)`, line 300 of server.py). -/
def zfillNat (n w : Nat) : String := ⟨zfillL (Nat.repr n).data w⟩

/-! ### Pattern extraction (`/parse` route, lines 70..96 of server.py)

The route matches `re.search(r"^(.*?)(\d+)([^0-9]*)$", url)`.  Because the
third group admits no digit and is anchored at the end, the digit group can
only be the last maximal run of digits of the string; the lazy first group
and the greedy digit group then make the match take the whole of that run.
Equivalently: the suffix is the maximal digit-free tail of the string, the
digit run is the maximal digit tail of what remains, the prefix is the
rest.  That equivalent form is what `splitLastRun` computes. -/

/-- Result of the `/parse` route (lines 89..96 of server.py). `pre`/`suf`
carry the regex groups named `prefix`/`suffix` in the source. -/
structure URLPattern where
  pre : String
  num_width : Nat
  base_num : Nat
  suf : String
deriving DecidableEq, Repr

/-- Split a character list at its last maximal run of decimal digits:
`some (p, q, r)` with the list equal to `p ++ q ++ r`, `q` a nonempty digit
run, `r` digit-free; `none` when no digit occurs. -/
def splitLastRun (cs : List Char) : Option (List Char × List Char × List Char) :=
  if ((cs.reverse.dropWhile (fun c => !isDig c)).takeWhile isDig) = [] then none
  else
    some (((cs.reverse.dropWhile (fun c => !isDig c)).dropWhile isDig).reverse,
          ((cs.reverse.dropWhile (fun c => !isDig c)).takeWhile isDig).reverse,
          (cs.reverse.takeWhile (fun c => !isDig c)).reverse)

/-- The `/parse` route's pattern extraction (lines 79..96 of server.py):
`num_width` is the length of the digit run, `base_num` its `int` value.
(The route first strips surrounding whitespace and rejects empty input;
`parseUrl` models the regex step on the stripped URL.) -/
def parseUrl (url : String) : Option URLPattern :=
  match splitLastRun url.data with
  | none => none
  | some (p, q, r) => some ⟨⟨p⟩, q.length, ofDigits q, ⟨r⟩⟩

/-! ### Static configuration of the scanner (lines 39..53 of server.py) -/

/-- The user-agent pool (lines 39..48 of server.py). -/
def USER_AGENTS : List String :=
  ["Mozilla/5.0 (Windows NT 10.0; Win64; x64) AppleWebKit/537.36 (KHTML, like Gecko) Chrome/122.0.0.0 Safari/537.36",
   "Mozilla/5.0 (Windows NT 10.0; Win64; x64; rv:124.0) Gecko/20100101 Firefox/124.0",
   "Mozilla/5.0 (Macintosh; Intel Mac OS X 14_3) AppleWebKit/605.1.15 (KHTML, like Gecko) Version/17.3 Safari/605.1.15",
   "Mozilla/5.0 (Windows NT 10.0; Win64; x64) AppleWebKit/537.36 (KHTML, like Gecko) Chrome/120.0.0.0 Safari/537.36 Edg/120.0.0.0",
   "Mozilla/5.0 (X11; Linux x86_64) AppleWebKit/537.36 (KHTML, like Gecko) Chrome/121.0.0.0 Safari/537.36",
   "Mozilla/5.0 (iPhone; CPU iPhone OS 17_3 like Mac OS X) AppleWebKit/605.1.15 Mobile/15E148 Safari/604.1",
   "Mozilla/5.0 (Windows NT 10.0) AppleWebKit/537.36 Chrome/119.0.0.0 Safari/537.36 OPR/105.0.0.0",
   "Mozilla/5.0 (Macintosh; Intel Mac OS X 13_6) AppleWebKit/537.36 Chrome/118.0.0.0 Safari/537.36"]

/-- Content types classified as HTML-like (line 53 of server.py). -/
def HTML_CTYPES : List String :=
  ["text/html", "text/plain", "text/xml", "application/xhtml+xml"]

/-- Identity the round-robin `agent_cycle = itertools.cycle(USER_AGENTS)`
(line 127 of server.py) would produce on its k-th draw. -/
def agentCycleAt (k : Nat) : String := USER_AGENTS.getD (k % USER_AGENTS.length) ""

/-- Identity actually presented by the k-th direct probe: every
`page.request.get` (line 384 of server.py) runs through the one browser
context created with `user_agent=USER_AGENTS[0]` (line 179);
`next(agent_cycle)` is never called anywhere in the source, so the probe
identity does not depend on k. -/
def probeIdentity (_ : Nat) : String := USER_AGENTS.getD 0 ""

/-! ### Events and responses -/

/-- The tagged SSE events of a scan (emitted through `_sse` / `_log`,
lines 56..61 of server.py). -/
inductive ScanEvent where
  | log (msg : String)
  | range (first last : String)
  | checking (url : String) (found i total : Nat)
  | hit (url : String) (found : Nat)
  | stopped (reason : String)
  | done (found : Nat)
deriving DecidableEq, Repr

/-- The part of an HTTP response the classifier reads (lines 385..388 of
server.py): status, raw content-type header, optional content-length. -/
structure HttpResponse where
  status : Nat
  contentType : String
  contentLength : Option Nat
deriving DecidableEq, Repr

/-- Python `headers.get("content-type", "").lower().split(";")[0].strip()`
(line 387 of server.py), over the char list of the header value. -/
def normalizeCT (s : String) : String :=
  ⟨(((s.data.map Char.toLower).takeWhile (fun c => c != ';')).dropWhile
      Char.isWhitespace).reverse.dropWhile Char.isWhitespace |>.reverse⟩

/-- Python `cl is not None and int(cl) < 10000` (line 396 of server.py). -/
def clSmall : Option Nat → Bool
  | some cl => decide (cl < 10000)
  | none => false

/-- The Direct Fetch classifier (lines 393..409 of server.py): a 200/206
response is a hit unless its normalized content-type is HTML-like or its
content-length is present and below 10,000 bytes; every other status is a
miss. -/
def isHit (r : HttpResponse) : Bool :=
  if r.status = 200 ∨ r.status = 206 then
    if normalizeCT r.contentType ∈ HTML_CTYPES then false
    else if clSmall r.contentLength then false
    else true
  else false

/-- Whether one probe's outcome (a response, or an exception carrying a
message) counts as a hit: exceptions are absorbed by the
`except Exception` handler of lines 415..416 of server.py and never hit. -/
def outcomeHit : Except String HttpResponse → Bool
  | Except.error _ => false
  | Except.ok r => isHit r

/-! ### The scan loop (lines 286..430 of server.py), Direct Fetch mode

The loop is embedded for `click_mode == False`; `fetch i ext` is the
environment: the result of `page.request.get` on candidate `i` with
extension `ext`, or `Except.error msg` when that call raises.  `yield`ed
SSE frames become list elements, in program order. -/

/-- One scan request's parameters (the `/scan` query arguments,
lines 101..115 of server.py), immutable during the scan.  `pre` carries
the source's `prefix` parameter. -/
structure ScanConfig where
  base_url : String
  pre : String
  num_width : Nat
  start_num : Nat
  max_n : Nat
  max_mis : Nat
  auto_download : Bool
  exts : List String
deriving Repr

/-- The full candidate URL of probe (i, ext) in Direct Fetch mode
(line 313 of server.py). -/
def urlOf (cfg : ScanConfig) (i : Nat) (ext : String) : String :=
  cfg.base_url ++ cfg.pre ++ zfillNat (cfg.start_num + i) cfg.num_width ++ ext

/-- Printing of the optional content-length header in the debug log
(line 391 of server.py; Python prints `None` for a missing header). -/
def sizeRepr : Option Nat → String
  | none => "None"
  | some n => Nat.repr n

/-- Download filename sanitization (lines 400..401 of server.py):
replace `:` and `/` by `_`, append `.bin` when no dot remains. -/
def sanitizeFname (s : String) : String :=
  let f := s.data.map (fun c => if c == ':' || c == '/' then '_' else c)
  if f.any (fun c => c == '.') then ⟨f⟩ else ⟨f ++ ".bin".data⟩

/-- One probe of the inner extension loop (lines 306..418 of server.py,
Direct Fetch branch): the `checking` frame, the debug/skip/save logs, the
possible `hit` frame, and whether it was a hit.  `found` is the hit count
before this probe; inner state (downloads, delays) has no event besides
the logs modeled here. -/
def probeStep (fetch : Nat → String → Except String HttpResponse)
    (cfg : ScanConfig) (i found : Nat) (ext : String) : List ScanEvent × Bool :=
  let pad := zfillNat (cfg.start_num + i) cfg.num_width
  let url := cfg.base_url ++ cfg.pre ++ pad ++ ext
  let ck := ScanEvent.checking url found i cfg.max_n
  match fetch i ext with
  | Except.error e =>
    (ck :: (if i < 3 then [ScanEvent.log ("   ↳ Request failure: " ++ e)] else []), false)
  | Except.ok r =>
    let ct := normalizeCT r.contentType
    let dbg : List ScanEvent :=
      if i < 3 then
        [ScanEvent.log ("🔬 " ++ pad ++ ext ++ " -> Status " ++ Nat.repr r.status ++
          " | Type '" ++ ct ++ "' | Size " ++ sizeRepr r.contentLength)]
      else []
    if r.status = 200 ∨ r.status = 206 then
      if ct ∈ HTML_CTYPES then
        (ck :: dbg ++
          (if i < 3 then [ScanEvent.log "   ↳ Skipped: HTML content (Gate re-triggered?)"] else []),
         false)
      else if clSmall r.contentLength then
        (ck :: dbg ++
          (if i < 3 then
            [ScanEvent.log ("   ↳ Skipped: File too small (" ++ sizeRepr r.contentLength ++ " bytes)")]
           else []),
         false)
      else
        (ck :: dbg ++
          (if cfg.auto_download then
            [ScanEvent.log ("💾 File saved: " ++
              sanitizeFname (cfg.pre ++ pad ++ ext))]
           else []) ++
          [ScanEvent.hit url (found + 1)],
         true)
    else if r.status = 403 then
      (ck :: dbg ++ [ScanEvent.log ("⛔ Blocked (403) on " ++ pad ++ ext ++ ".")], false)
    else if r.status = 429 then
      (ck :: dbg ++ [ScanEvent.log "⏳ Rate limited (429)."], false)
    else (ck :: dbg, false)

/-- The `for ext in ext_list_to_scan` loop for one candidate identifier
(lines 306..418 of server.py): threads `found` and the per-identifier
`hit_this` flag, concatenating each probe's events.  A hit does not break
the loop; remaining extensions are still probed. -/
def scanExts (fetch : Nat → String → Except String HttpResponse) (cfg : ScanConfig)
    (i : Nat) : List String → Nat → Bool → List ScanEvent × Nat × Bool
  | [], found, hitThis => ([], found, hitThis)
  | ext :: rest, found, hitThis =>
    let st := probeStep fetch cfg i found ext
    let tail := scanExts fetch cfg i rest (if st.2 then found + 1 else found) (hitThis || st.2)
    (st.1 ++ tail.1, tail.2)

/-- The events after the `for i in range(max_n)` loop ends — by exhaustion
or by the consecutive-miss `break` (lines 428..430 of server.py):
`browser.close()`, the completion log, and the `done` frame. -/
def closingEvents (found : Nat) : List ScanEvent :=
  [ScanEvent.log ("✔ Scan complete. " ++ Nat.repr found ++ " URLs validated. Browser closed."),
   ScanEvent.done found]

/-- The outer candidate loop (lines 298..430 of server.py) over the list
of identifier offsets: after a row with a hit `consecutive` resets to 0,
otherwise it increments, and when the incremented value reaches `max_mis`
the `stopped` frame is emitted and the loop breaks — after which
`closingEvents` still runs (lines 428..430 are outside the loop). -/
def scanLoop (fetch : Nat → String → Except String HttpResponse) (cfg : ScanConfig) :
    List Nat → Nat → Nat → List ScanEvent
  | [], found, _ => closingEvents found
  | i :: rest, found, consecutive =>
    let row := scanExts fetch cfg i cfg.exts found false
    if row.2.2 then row.1 ++ scanLoop fetch cfg rest row.2.1 0
    else if cfg.max_mis ≤ consecutive + 1 then
      row.1 ++ ScanEvent.stopped (Nat.repr cfg.max_mis ++ " consecutive misses") ::
        closingEvents row.2.1
    else row.1 ++ scanLoop fetch cfg rest row.2.1 (consecutive + 1)

/-- The range-preview frame and start log (lines 286..294 of server.py). -/
def rangeEvents (cfg : ScanConfig) : List ScanEvent :=
  [ScanEvent.range
     (cfg.base_url ++ cfg.pre ++ zfillNat cfg.start_num cfg.num_width ++ cfg.exts.headD "")
     (cfg.base_url ++ cfg.pre ++ zfillNat (cfg.start_num + cfg.max_n - 1) cfg.num_width ++
       cfg.exts.getLastD ""),
   ScanEvent.log ("🚀 Starting scan of " ++ Nat.repr cfg.max_n ++
     " batches (using Browser Network Context)")]

/-- The whole Direct Fetch scan of lines 286..430 of server.py: range
preview, the loop over `range(max_n)`, and the closing events. -/
def runDirectScan (fetch : Nat → String → Except String HttpResponse)
    (cfg : ScanConfig) : List ScanEvent :=
  rangeEvents cfg ++ scanLoop fetch cfg (List.range cfg.max_n) 0 0

/-! ### The generator wrapper and the browser-launch phase -/

/-- The Python exceptions that can escape `run_playwright_logic` and be
seen by `generate` (lines 432..437 of server.py). -/
inductive PyExn where
  | importError
  | other (msg : String)
deriving DecidableEq, Repr

/-- The `generate` wrapper around `yield from run_playwright_logic()`
(lines 432..437 of server.py): an escaping exception is swallowed and one
log frame is appended; nothing else follows, so the generator ends. -/
def generateWrap : List ScanEvent × Option PyExn → List ScanEvent
  | (evs, none) => evs
  | (evs, some PyExn.importError) =>
    evs ++ [ScanEvent.log "⚠ Playwright not installed — scanning without gate bypass."]
  | (evs, some (PyExn.other m)) =>
    evs ++ [ScanEvent.log ("⚠ Browser error: " ++ m ++ " — continuing anyway.")]

/-- Python `needle in hay` on strings: some drop of the haystack starts
with the needle. -/
def containsSub (needle hay : String) : Bool :=
  (List.range (hay.data.length + 1)).any (fun k => needle.data.isPrefixOf (hay.data.drop k))

/-- The missing-binary test of line 158 of server.py applied to
`str(e).lower()`. -/
def missingBinaryMsg (m : String) : Bool :=
  let low : String := ⟨m.data.map Char.toLower⟩
  containsSub "executable doesn't exist" low || containsSub "playwright install" low ||
    containsSub "not found" low

/-- The browser-launch phase (lines 145..177 of server.py): first launch,
and on a missing-binary failure the one managed-install attempt followed
by a relaunch; a failure of install or relaunch is logged and re-raised.
Any other launch failure is re-raised unlogged.  Returns the yielded
events and the escaping exception, if any. -/
def browserPhase (browserDir : String) (launch1 install relaunch : Except String Unit) :
    List ScanEvent × Option PyExn :=
  match launch1 with
  | Except.ok _ => ([], none)
  | Except.error m =>
    if missingBinaryMsg m then
      let attempt : List ScanEvent × Option PyExn :=
        match install with
        | Except.error im =>
          ([ScanEvent.log ("⚠ Browser auto-install failed: " ++ im)], some (PyExn.other im))
        | Except.ok _ =>
          match relaunch with
          | Except.ok _ => ([ScanEvent.log "✔ Chromium installed. Launching..."], none)
          | Except.error rm =>
            ([ScanEvent.log "✔ Chromium installed. Launching...",
              ScanEvent.log ("⚠ Browser auto-install failed: " ++ rm)], some (PyExn.other rm))
      (ScanEvent.log ("🌐 Chromium missing at " ++ browserDir ++ ". Attempting install...") ::
        attempt.1, attempt.2)
    else ([], some (PyExn.other m))

/-- The function `run_playwright_logic` (lines 142..430 of server.py) for a scan with
no cookie: the playwright import, the launch phase, the age-gate phase
(lines 183..284 — it yields only `log` frames, abstracted as
`gateEvents`), then the Direct Fetch scan.  When the launch phase raises,
nothing after it runs. -/
def runPlaywrightLogic (importOk : Bool) (browserDir : String)
    (launch1 install relaunch : Except String Unit) (gateEvents : List ScanEvent)
    (fetch : Nat → String → Except String HttpResponse) (cfg : ScanConfig) :
    List ScanEvent × Option PyExn :=
  if importOk then
    let bp := browserPhase browserDir launch1 install relaunch
    match bp.2 with
    | some e => (bp.1, some e)
    | none => (bp.1 ++ gateEvents ++ runDirectScan fetch cfg, none)
  else ([], some PyExn.importError)

/-- The full stream `generate` produces for a cookieless Direct Fetch scan
(lines 117..437 of server.py). -/
def generateStream (importOk : Bool) (browserDir : String)
    (launch1 install relaunch : Except String Unit) (gateEvents : List ScanEvent)
    (fetch : Nat → String → Except String HttpResponse) (cfg : ScanConfig) : List ScanEvent :=
  generateWrap (runPlaywrightLogic importOk browserDir launch1 install relaunch gateEvents fetch cfg)

/-! ### Browser-session lifecycle (claim C9) -/

/-- The ways a scan's body can end (section 5 of the spec): loop
exhaustion, the consecutive-miss break, or an exception escaping the loop
body. -/
inductive ScanExit where
  | completed
  | stoppedEarly
  | fatalError (msg : String)
deriving DecidableEq, Repr

/-- Whether the launched browser is still open at the instant control
leaves the body of `run_playwright_logic`: `browser.close()` (line 428 of
server.py) runs after the loop ends normally or breaks, but there is no
`finally`, so an escaping exception leaves the body with the browser
open. -/
def browserOpenAtBodyExit : ScanExit → Bool
  | ScanExit.completed => false
  | ScanExit.stoppedEarly => false
  | ScanExit.fatalError _ => true

/-- The `with sync_playwright() as pw:` block (line 144 of server.py):
its `__exit__` runs on every way out of the block — return and exception
alike — stopping the playwright driver, which closes every browser it
launched.  So whatever the body left open, nothing survives the block. -/
def browserOpenAfterWith (_openAtBodyExit : Bool) : Bool := false

/-! ### Event-stream observations (used to state the claims) -/

/-- Event-kind tests. -/
def isLogEv : ScanEvent → Bool
  | ScanEvent.log _ => true
  | _ => false

def isCheckingEv : ScanEvent → Bool
  | ScanEvent.checking _ _ _ _ => true
  | _ => false

def isHitEv : ScanEvent → Bool
  | ScanEvent.hit _ _ => true
  | _ => false

def isStoppedEv : ScanEvent → Bool
  | ScanEvent.stopped _ => true
  | _ => false

def isDoneEv : ScanEvent → Bool
  | ScanEvent.done _ => true
  | _ => false

/-- Hit-counter consistency of an event stream (claim C10), checked while
carrying the number of `hit` events already seen, starting from `c`: every
`checking` frame must carry that number, every `hit` frame must carry it
plus one (and bumps it), and every `done` frame must carry it.  `log`,
`range` and `stopped` frames carry no counter. -/
def consistentFrom : Nat → List ScanEvent → Bool
  | _, [] => true
  | c, ScanEvent.checking _ f _ _ :: rest => (f == c) && consistentFrom c rest
  | c, ScanEvent.hit _ f :: rest => (f == c + 1) && consistentFrom (c + 1) rest
  | c, ScanEvent.done f :: rest => (f == c) && consistentFrom c rest
  | c, ScanEvent.log _ :: rest => consistentFrom c rest
  | c, ScanEvent.range _ _ :: rest => consistentFrom c rest
  | c, ScanEvent.stopped _ :: rest => consistentFrom c rest

/-- Replace every probe exception of an environment by a plain 404
response (a miss carrying no events but the `checking` frame).  Claim C7
compares a scan against its patched environment. -/
def patchMiss (fetch : Nat → String → Except String HttpResponse) :
    Nat → String → Except String HttpResponse := fun i ext =>
  match fetch i ext with
  | Except.error _ => Except.ok ⟨404, "", none⟩
  | Except.ok r => Except.ok r

/-- Whether candidate identifier `i`'s whole extension row misses — no
hit among its extensions, the negation of the loop's `hit_this` flag
(lines 301..420 of server.py). -/
def missRow (fetch : Nat → String → Except String HttpResponse) (cfg : ScanConfig)
    (i : Nat) : Bool :=
  !(cfg.exts.any fun e => outcomeHit (fetch i e))

/-- Specification-side counter dynamics, following claim C4's words: a
hit among a candidate's extensions resets the consecutive-miss counter to
0, otherwise the counter increments by 1, and the scan stops exactly when
the counter reaches `max_mis`.  `specStops l cons` is `true` iff the stop
fires while processing the rows `l` starting the counter at `cons`.
Claim C4 proves the loop's `stopped` frame refines this dynamics and
characterizes it by windows of `max_mis` consecutive all-miss rows. -/
def specStops (fetch : Nat → String → Except String HttpResponse) (cfg : ScanConfig) :
    List Nat → Nat → Bool
  | [], _ => false
  | i :: rest, cons =>
    if missRow fetch cfg i then
      if cfg.max_mis ≤ cons + 1 then true else specStops fetch cfg rest (cons + 1)
    else specStops fetch cfg rest 0

/-! ## Theorems

First the supporting lemmas, then the claim theorems, witnesses and
counterexamples. -/

theorem char_eq_of_toNat {a b : Char} (h : a.toNat = b.toNat) : a = b :=
  Char.ext (UInt32.ext h)

theorem isDig_bounds {c : Char} (h : isDig c = true) : 48 ≤ c.toNat ∧ c.toNat ≤ 57 := by
  simpa [isDig] using h

theorem digVal_lt_ten {c : Char} (h : isDig c = true) : digVal c < 10 := by
  have := isDig_bounds h
  simp only [digVal]
  omega

theorem digitChar_digVal {c : Char} (h : isDig c = true) : Nat.digitChar (digVal c) = c := by
  obtain ⟨h1, h2⟩ := isDig_bounds h
  have hc : c.toNat = 48 ∨ c.toNat = 49 ∨ c.toNat = 50 ∨ c.toNat = 51 ∨ c.toNat = 52 ∨
      c.toNat = 53 ∨ c.toNat = 54 ∨ c.toNat = 55 ∨ c.toNat = 56 ∨ c.toNat = 57 := by omega
  rcases hc with hc | hc | hc | hc | hc | hc | hc | hc | hc | hc <;>
    (apply char_eq_of_toNat; rw [digVal, hc]; decide)

theorem zero_char_of_digVal {c : Char} (h : isDig c = true) (h0 : digVal c = 0) : c = '0' := by
  obtain ⟨h1, _⟩ := isDig_bounds h
  apply char_eq_of_toNat
  have : c.toNat = 48 := by simp only [digVal] at h0; omega
  rw [this]; decide

theorem ofDigits_append (s : List Char) (c : Char) :
    ofDigits (s ++ [c]) = 10 * ofDigits s + digVal c := by
  simp [ofDigits, List.foldl_append]


theorem natDigits_small {n : Nat} (h : n < 10) : natDigits n = [Nat.digitChar n] := by
  rw [natDigits]; simp [h]

theorem natDigits_step {n : Nat} (h : 10 ≤ n) :
    natDigits n = natDigits (n / 10) ++ [Nat.digitChar (n % 10)] := by
  rw [natDigits]; simp [Nat.not_lt.mpr h]

theorem toDigitsCore_succ (b fuel n : Nat) (ds : List Char) :
    Nat.toDigitsCore b (fuel + 1) n ds =
      if n / b = 0 then Nat.digitChar (n % b) :: ds
      else Nat.toDigitsCore b fuel (n / b) (Nat.digitChar (n % b) :: ds) := rfl

theorem toDigitsCore_eq (fuel : Nat) : ∀ (n : Nat) (acc : List Char), n < fuel →
    Nat.toDigitsCore 10 fuel n acc = natDigits n ++ acc := by
  induction fuel with
  | zero => intro n acc h; omega
  | succ fuel ih =>
    intro n acc h
    rw [toDigitsCore_succ]
    by_cases h10 : n < 10
    · have hz : n / 10 = 0 := Nat.div_eq_of_lt h10
      have hm : n % 10 = n := Nat.mod_eq_of_lt h10
      rw [natDigits_small h10]
      simp [hz, hm]
    · have hge : 10 ≤ n := Nat.not_lt.mp h10
      have hz : ¬ n / 10 = 0 := by
        have h1 : 1 ≤ n / 10 := (Nat.le_div_iff_mul_le (by omega)).mpr (by omega)
        omega
      rw [if_neg hz]
      have hlt : n / 10 < fuel := by
        have := Nat.div_lt_self (by omega : 0 < n) (by omega : 1 < 10)
        omega
      rw [ih (n / 10) _ hlt]
      rw [natDigits_step hge]
      simp

theorem repr_data (n : Nat) : (Nat.repr n).data = natDigits n := by
  show (Nat.toDigits 10 n).asString.data = natDigits n
  rw [Nat.toDigits, toDigitsCore_eq (n+1) n [] (by omega)]
  simp [List.asString]


theorem ofDigits_zero_replicate : ∀ (s : List Char), (∀ c ∈ s, isDig c = true) →
    ofDigits s = 0 → s = List.replicate s.length '0' := by
  intro s
  induction s using List.reverseRecOn with
  | nil => intro _ _; rfl
  | append_singleton l c ih =>
    intro hdig h0
    rw [ofDigits_append] at h0
    have hc : c ∈ l ++ [c] := by simp
    have hvz : digVal c = 0 := by omega
    have haz : ofDigits l = 0 := by omega
    have hl : l = List.replicate l.length '0' :=
      ih (fun x hx => hdig x (by simp [hx])) haz
    have hc0 : c = '0' := zero_char_of_digVal (hdig c hc) hvz
    rw [List.length_append, List.length_singleton, List.replicate_succ']
    rw [← hl, hc0]

theorem zfill_natDigits : ∀ (s : List Char), s ≠ [] → (∀ c ∈ s, isDig c = true) →
    zfillL (natDigits (ofDigits s)) s.length = s := by
  intro s
  induction s using List.reverseRecOn with
  | nil => intro h _; exact absurd rfl h
  | append_singleton l c ih =>
    intro _ hdig
    have hcd : isDig c = true := hdig c (by simp)
    have hld : ∀ x ∈ l, isDig x = true := fun x hx => hdig x (by simp [hx])
    have hdv : digVal c < 10 := digVal_lt_ten hcd
    rw [ofDigits_append]
    rcases List.eq_nil_or_concat l with hnil | _
    · subst hnil
      simp only [ofDigits, List.foldl_nil, Nat.mul_zero, Nat.zero_add]
      rw [natDigits_small hdv, digitChar_digVal hcd]
      simp [zfillL]
    · by_cases ha : ofDigits l = 0
      · rw [ha]
        simp only [Nat.mul_zero, Nat.zero_add]
        rw [natDigits_small hdv, digitChar_digVal hcd]
        have hl : l = List.replicate l.length '0' := ofDigits_zero_replicate l hld ha
        have hlen : (l ++ [c]).length = l.length + 1 := by simp
        rw [zfillL, hlen]
        simp only [List.length_singleton]
        have h1 : l.length + 1 - 1 = l.length := by omega
        rw [h1]
        conv_rhs => rw [hl]

      · have ha1 : 1 ≤ ofDigits l := by omega
        have hge : 10 ≤ 10 * ofDigits l + digVal c := by omega
        rw [natDigits_step hge]
        have hdiv : (10 * ofDigits l + digVal c) / 10 = ofDigits l := by
          rw [Nat.mul_add_div (by omega)]
          simp [Nat.div_eq_of_lt hdv]
        have hmod : (10 * ofDigits l + digVal c) % 10 = digVal c := by
          rw [Nat.mul_add_mod]
          exact Nat.mod_eq_of_lt hdv
        rw [hdiv, hmod, digitChar_digVal hcd]
        have ihl := ih (by rintro rfl; simp [ofDigits] at ha) hld
        simp only [zfillL, List.length_append, List.length_singleton] at ihl ⊢
        have hs : l.length + 1 - ((natDigits (ofDigits l)).length + 1) =
            l.length - (natDigits (ofDigits l)).length := by omega
        rw [hs, ← List.append_assoc, ihl]


theorem splitLastRun_eq_some {cs : List Char}
    (h : (cs.reverse.dropWhile (fun c => !isDig c)).takeWhile isDig ≠ []) :
    splitLastRun cs =
      some (((cs.reverse.dropWhile (fun c => !isDig c)).dropWhile isDig).reverse,
            ((cs.reverse.dropWhile (fun c => !isDig c)).takeWhile isDig).reverse,
            (cs.reverse.takeWhile (fun c => !isDig c)).reverse) := by
  unfold splitLastRun
  rw [if_neg h]

theorem takeWhile_ne_nil_of_digit {cs : List Char} (hd : ∃ c ∈ cs, isDig c = true) :
    (cs.reverse.dropWhile (fun c => !isDig c)).takeWhile isDig ≠ [] := by
  obtain ⟨c, hc, hdig⟩ := hd
  have hrest : cs.reverse.dropWhile (fun c => !isDig c) ≠ [] := by
    intro hnil
    rw [List.dropWhile_eq_nil_iff] at hnil
    have := hnil c (List.mem_reverse.mpr hc)
    simp [hdig] at this
  obtain ⟨d, t, hdt⟩ := List.exists_cons_of_ne_nil hrest
  have hdd : isDig d = true := by
    have hh := List.head?_dropWhile_not (fun c => !isDig c) cs.reverse
    rw [hdt] at hh
    simpa using hh
  rw [hdt, List.takeWhile_cons_of_pos hdd]
  simp

theorem splitLastRun_shape {cs p q r : List Char}
    (h : splitLastRun cs = some (p, q, r)) :
    cs = p ++ q ++ r ∧ q ≠ [] ∧ (∀ x ∈ q, isDig x = true) ∧ (∀ x ∈ r, isDig x = false) ∧
      (∀ x, p.getLast? = some x → isDig x = false) := by
  unfold splitLastRun at h
  by_cases hn : (cs.reverse.dropWhile (fun c => !isDig c)).takeWhile isDig = []
  · rw [if_pos hn] at h; exact absurd h (by simp)
  · rw [if_neg hn] at h
    simp only [Option.some.injEq, Prod.mk.injEq] at h
    obtain ⟨hp, hq, hr⟩ := h
    have hsplit2 : cs.reverse.dropWhile (fun c => !isDig c) =
        (cs.reverse.dropWhile (fun c => !isDig c)).takeWhile isDig ++
        (cs.reverse.dropWhile (fun c => !isDig c)).dropWhile isDig :=
      (List.takeWhile_append_dropWhile isDig _).symm
    have hsplit1 : cs.reverse = cs.reverse.takeWhile (fun c => !isDig c) ++
        cs.reverse.dropWhile (fun c => !isDig c) :=
      (List.takeWhile_append_dropWhile (fun c => !isDig c) _).symm
    refine ⟨?_, ?_, ?_, ?_, ?_⟩
    · have h0 : cs = cs.reverse.reverse := (List.reverse_reverse cs).symm
      rw [h0]
      conv_lhs => rw [hsplit1, hsplit2]
      rw [List.reverse_append, List.reverse_append, List.append_assoc]
      rw [← hp, ← hq, ← hr]
      exact (List.append_assoc _ _ _).symm
    · rw [← hq]
      simpa using hn
    · intro x hx
      rw [← hq, List.mem_reverse] at hx
      exact List.mem_takeWhile_imp hx
    · intro x hx
      rw [← hr, List.mem_reverse] at hx
      have := List.mem_takeWhile_imp hx
      simpa using this
    · intro x hx
      rw [← hp, List.getLast?_reverse] at hx
      have hh := List.head?_dropWhile_not isDig (cs.reverse.dropWhile (fun c => !isDig c))
      rw [hx] at hh
      exact hh


theorem zfillNat_digits {q : List Char} (hq : q ≠ []) (hdig : ∀ x ∈ q, isDig x = true) :
    zfillNat (ofDigits q) q.length = ⟨q⟩ := by
  show (⟨zfillL (Nat.repr (ofDigits q)).data q.length⟩ : String) = ⟨q⟩
  rw [repr_data, zfill_natDigits q hq hdig]

/-- C2: for every URL string containing at least one decimal digit, pattern
extraction succeeds on the last contiguous run of decimal digits, the
reconstruction `prefix ++ zfill(str(base_num), num_width) ++ suffix` equals
the input URL, and re-extracting from that reconstruction yields the
identical pattern. -/
theorem claim_C2 (url : String) (hd : ∃ c ∈ url.data, isDig c = true) :
    ∃ pat : URLPattern, parseUrl url = some pat ∧
      (∃ p q r : List Char, url.data = p ++ q ++ r ∧ q ≠ [] ∧
        (∀ x ∈ q, isDig x = true) ∧ (∀ x ∈ r, isDig x = false) ∧
        (∀ x, p.getLast? = some x → isDig x = false) ∧
        pat.pre = ⟨p⟩ ∧ pat.num_width = q.length ∧ pat.base_num = ofDigits q ∧ pat.suf = ⟨r⟩) ∧
      pat.pre ++ zfillNat pat.base_num pat.num_width ++ pat.suf = url ∧
      parseUrl (pat.pre ++ zfillNat pat.base_num pat.num_width ++ pat.suf) = some pat := by
  have hne := takeWhile_ne_nil_of_digit hd
  rcases e : splitLastRun url.data with _ | ⟨⟨p, q, r⟩⟩
  · rw [splitLastRun_eq_some hne] at e
    cases e
  · obtain ⟨hcat, hqne, hqd, hrd, hpd⟩ := splitLastRun_shape e
    have hparse : parseUrl url = some ⟨⟨p⟩, q.length, ofDigits q, ⟨r⟩⟩ := by
      unfold parseUrl
      rw [e]
    have hrec : (⟨p⟩ : String) ++ zfillNat (ofDigits q) q.length ++ (⟨r⟩ : String) = url := by
      rw [zfillNat_digits hqne hqd]
      show (⟨p ++ q ++ r⟩ : String) = url
      rw [← hcat]
    refine ⟨⟨⟨p⟩, q.length, ofDigits q, ⟨r⟩⟩, hparse,
      ⟨p, q, r, hcat, hqne, hqd, hrd, hpd, rfl, rfl, rfl, rfl⟩, hrec, ?_⟩
    show parseUrl ((⟨p⟩ : String) ++ zfillNat (ofDigits q) q.length ++ (⟨r⟩ : String)) = _
    rw [hrec, hparse]


theorem claim_C2_witness :
    (∃ c ∈ ("https://a.example/clip00042.mp4" : String).data, isDig c = true) ∧
      (∃ pat : URLPattern, parseUrl "https://a.example/clip00042.mp4" = some pat ∧
        (∃ p q r : List Char, ("https://a.example/clip00042.mp4" : String).data = p ++ q ++ r ∧
          q ≠ [] ∧ (∀ x ∈ q, isDig x = true) ∧ (∀ x ∈ r, isDig x = false) ∧
          (∀ x, p.getLast? = some x → isDig x = false) ∧
          pat.pre = ⟨p⟩ ∧ pat.num_width = q.length ∧ pat.base_num = ofDigits q ∧ pat.suf = ⟨r⟩) ∧
        pat.pre ++ zfillNat pat.base_num pat.num_width ++ pat.suf = "https://a.example/clip00042.mp4" ∧
        parseUrl (pat.pre ++ zfillNat pat.base_num pat.num_width ++ pat.suf) = some pat) :=
  ⟨by decide, claim_C2 "https://a.example/clip00042.mp4" (by decide)⟩


theorem probeStep_hit (f : Nat → String → Except String HttpResponse) (cfg : ScanConfig)
    (i fd : Nat) (e : String) : (probeStep f cfg i fd e).2 = outcomeHit (f i e) := by
  rcases hfe : f i e with m | r <;>
    simp only [probeStep, outcomeHit, isHit, hfe] <;>
    split_ifs <;> rfl

theorem probeStep_countChecking (f : Nat → String → Except String HttpResponse)
    (cfg : ScanConfig) (i fd : Nat) (e : String) :
    List.countP isCheckingEv (probeStep f cfg i fd e).1 = 1 := by
  rcases hfe : f i e with m | r <;>
    simp only [probeStep, hfe] <;>
    split_ifs <;>
    simp [List.countP_cons, List.countP_append, isCheckingEv]

theorem probeStep_countHit (f : Nat → String → Except String HttpResponse)
    (cfg : ScanConfig) (i fd : Nat) (e : String) :
    List.countP isHitEv (probeStep f cfg i fd e).1 =
      if outcomeHit (f i e) then 1 else 0 := by
  rcases hfe : f i e with m | r <;>
    simp only [probeStep, outcomeHit, isHit, hfe] <;>
    split_ifs <;>
    simp_all [List.countP_cons, List.countP_append, isHitEv]

theorem probeStep_countStopped (f : Nat → String → Except String HttpResponse)
    (cfg : ScanConfig) (i fd : Nat) (e : String) :
    List.countP isStoppedEv (probeStep f cfg i fd e).1 = 0 := by
  rcases hfe : f i e with m | r <;>
    simp only [probeStep, hfe] <;>
    split_ifs <;>
    simp [List.countP_cons, List.countP_append, isStoppedEv]

theorem probeStep_countDone (f : Nat → String → Except String HttpResponse)
    (cfg : ScanConfig) (i fd : Nat) (e : String) :
    List.countP isDoneEv (probeStep f cfg i fd e).1 = 0 := by
  rcases hfe : f i e with m | r <;>
    simp only [probeStep, hfe] <;>
    split_ifs <;>
    simp [List.countP_cons, List.countP_append, isDoneEv]

theorem probeStep_consistent (f : Nat → String → Except String HttpResponse)
    (cfg : ScanConfig) (i fd : Nat) (e : String) (rest : List ScanEvent) :
    consistentFrom fd ((probeStep f cfg i fd e).1 ++ rest) =
      consistentFrom (if outcomeHit (f i e) then fd + 1 else fd) rest := by
  rcases hfe : f i e with m | r <;>
    simp only [probeStep, outcomeHit, isHit, hfe] <;>
    split_ifs <;>
    simp_all [consistentFrom]

theorem probeStep_filter (f : Nat → String → Except String HttpResponse)
    (cfg : ScanConfig) (i fd : Nat) (e : String) :
    (probeStep f cfg i fd e).1.filter (fun ev => !isLogEv ev) =
      ScanEvent.checking (urlOf cfg i e) fd i cfg.max_n ::
        (if outcomeHit (f i e) then [ScanEvent.hit (urlOf cfg i e) (fd + 1)] else []) := by
  rcases hfe : f i e with m | r <;>
    simp only [probeStep, outcomeHit, isHit, urlOf, hfe] <;>
    split_ifs <;>
    simp_all [List.filter, isLogEv]


theorem scanExts_found (f : Nat → String → Except String HttpResponse) (cfg : ScanConfig)
    (i : Nat) : ∀ (l : List String) (fd : Nat) (b : Bool),
    (scanExts f cfg i l fd b).2.1 = fd + l.countP (fun e => outcomeHit (f i e)) := by
  intro l
  induction l with
  | nil => intro fd b; simp [scanExts]
  | cons e rest ih =>
    intro fd b
    simp only [scanExts, List.countP_cons]
    rw [ih, probeStep_hit]
    by_cases h : outcomeHit (f i e) = true <;> simp [h] <;> omega

theorem scanExts_hitThis (f : Nat → String → Except String HttpResponse) (cfg : ScanConfig)
    (i : Nat) : ∀ (l : List String) (fd : Nat) (b : Bool),
    (scanExts f cfg i l fd b).2.2 = (b || l.any (fun e => outcomeHit (f i e))) := by
  intro l
  induction l with
  | nil => intro fd b; simp [scanExts]
  | cons e rest ih =>
    intro fd b
    simp only [scanExts, List.any_cons]
    rw [ih, probeStep_hit]
    by_cases h : outcomeHit (f i e) = true <;> simp [h]

theorem scanExts_countChecking (f : Nat → String → Except String HttpResponse)
    (cfg : ScanConfig) (i : Nat) : ∀ (l : List String) (fd : Nat) (b : Bool),
    List.countP isCheckingEv (scanExts f cfg i l fd b).1 = l.length := by
  intro l
  induction l with
  | nil => intro fd b; simp [scanExts]
  | cons e rest ih =>
    intro fd b
    simp only [scanExts, List.countP_append, List.length_cons]
    rw [probeStep_countChecking, ih]
    omega

theorem scanExts_countHit (f : Nat → String → Except String HttpResponse)
    (cfg : ScanConfig) (i : Nat) : ∀ (l : List String) (fd : Nat) (b : Bool),
    List.countP isHitEv (scanExts f cfg i l fd b).1 =
      l.countP (fun e => outcomeHit (f i e)) := by
  intro l
  induction l with
  | nil => intro fd b; simp [scanExts]
  | cons e rest ih =>
    intro fd b
    simp only [scanExts, List.countP_append, List.countP_cons]
    rw [probeStep_countHit, ih]
    omega

theorem scanExts_countStopped (f : Nat → String → Except String HttpResponse)
    (cfg : ScanConfig) (i : Nat) : ∀ (l : List String) (fd : Nat) (b : Bool),
    List.countP isStoppedEv (scanExts f cfg i l fd b).1 = 0 := by
  intro l
  induction l with
  | nil => intro fd b; simp [scanExts]
  | cons e rest ih =>
    intro fd b
    simp only [scanExts, List.countP_append]
    rw [probeStep_countStopped, ih]

theorem scanExts_countDone (f : Nat → String → Except String HttpResponse)
    (cfg : ScanConfig) (i : Nat) : ∀ (l : List String) (fd : Nat) (b : Bool),
    List.countP isDoneEv (scanExts f cfg i l fd b).1 = 0 := by
  intro l
  induction l with
  | nil => intro fd b; simp [scanExts]
  | cons e rest ih =>
    intro fd b
    simp only [scanExts, List.countP_append]
    rw [probeStep_countDone, ih]

theorem scanExts_consistent (f : Nat → String → Except String HttpResponse)
    (cfg : ScanConfig) (i : Nat) : ∀ (l : List String) (fd : Nat) (b : Bool)
    (rest : List ScanEvent),
    consistentFrom fd ((scanExts f cfg i l fd b).1 ++ rest) =
      consistentFrom ((scanExts f cfg i l fd b).2.1) rest := by
  intro l
  induction l with
  | nil => intro fd b rest; simp [scanExts]
  | cons e rest0 ih =>
    intro fd b rest
    simp only [scanExts, List.append_assoc]
    rw [probeStep_consistent]
    rw [probeStep_hit]
    by_cases h : outcomeHit (f i e) = true
    · simp only [h, if_pos]
      rw [ih]
    · simp only [h]
      simp only [Bool.false_eq_true, if_false]
      rw [ih]


theorem closing_countDone (n : Nat) : List.countP isDoneEv (closingEvents n) = 1 := by
  simp [closingEvents, isDoneEv, List.countP_cons]

theorem closing_countStopped (n : Nat) : List.countP isStoppedEv (closingEvents n) = 0 := by
  simp [closingEvents, isStoppedEv, List.countP_cons]

theorem closing_countChecking (n : Nat) : List.countP isCheckingEv (closingEvents n) = 0 := by
  simp [closingEvents, isCheckingEv, List.countP_cons]

theorem closing_countHit (n : Nat) : List.countP isHitEv (closingEvents n) = 0 := by
  simp [closingEvents, isHitEv, List.countP_cons]

theorem closing_consistent (c : Nat) : consistentFrom c (closingEvents c) = true := by
  simp [closingEvents, consistentFrom]

theorem scanLoop_countDone (f : Nat → String → Except String HttpResponse)
    (cfg : ScanConfig) : ∀ (l : List Nat) (fd cons : Nat),
    List.countP isDoneEv (scanLoop f cfg l fd cons) = 1 := by
  intro l
  induction l with
  | nil => intro fd cons; simpa [scanLoop] using closing_countDone fd
  | cons i rest ih =>
    intro fd cons
    simp only [scanLoop]
    split_ifs <;>
      simp only [List.countP_append, List.countP_cons, scanExts_countDone, ih,
        closing_countDone, isDoneEv] <;> simp [scanExts_countDone]

theorem scanLoop_countStopped_le (f : Nat → String → Except String HttpResponse)
    (cfg : ScanConfig) : ∀ (l : List Nat) (fd cons : Nat),
    List.countP isStoppedEv (scanLoop f cfg l fd cons) ≤ 1 := by
  intro l
  induction l with
  | nil => intro fd cons; simp [scanLoop, closing_countStopped]
  | cons i rest ih =>
    intro fd cons
    simp only [scanLoop]
    split_ifs <;>
      simp only [List.countP_append, List.countP_cons, scanExts_countStopped,
        closing_countStopped, isStoppedEv] <;>
      first
        | simpa [scanExts_countStopped] using ih rest.headD 0 0
        | simp [scanExts_countStopped, ih]

theorem scanLoop_ends_closing (f : Nat → String → Except String HttpResponse)
    (cfg : ScanConfig) : ∀ (l : List Nat) (fd cons : Nat),
    ∃ pre n, scanLoop f cfg l fd cons = pre ++ closingEvents n := by
  intro l
  induction l with
  | nil => intro fd cons; exact ⟨[], fd, rfl⟩
  | cons i rest ih =>
    intro fd cons
    simp only [scanLoop]
    split_ifs
    · obtain ⟨pre, n, hpn⟩ := ih (scanExts f cfg i cfg.exts fd false).2.1 0
      exact ⟨(scanExts f cfg i cfg.exts fd false).1 ++ pre, n, by rw [hpn, List.append_assoc]⟩
    · refine ⟨(scanExts f cfg i cfg.exts fd false).1 ++
        [ScanEvent.stopped (Nat.repr cfg.max_mis ++ " consecutive misses")],
        (scanExts f cfg i cfg.exts fd false).2.1, ?_⟩
      simp
    · obtain ⟨pre, n, hpn⟩ := ih (scanExts f cfg i cfg.exts fd false).2.1 (cons + 1)
      exact ⟨(scanExts f cfg i cfg.exts fd false).1 ++ pre, n, by rw [hpn, List.append_assoc]⟩

theorem scanLoop_consistent (f : Nat → String → Except String HttpResponse)
    (cfg : ScanConfig) : ∀ (l : List Nat) (fd cons : Nat),
    consistentFrom fd (scanLoop f cfg l fd cons) = true := by
  intro l
  induction l with
  | nil => intro fd cons; simpa [scanLoop] using closing_consistent fd
  | cons i rest ih =>
    intro fd cons
    simp only [scanLoop]
    split_ifs
    · rw [scanExts_consistent, ih]
    · rw [scanExts_consistent]
      simp [consistentFrom, closing_consistent]
    · rw [scanExts_consistent, ih]


theorem range_count_nonLog (p : ScanEvent → Bool)
    (hlog : ∀ m, p (ScanEvent.log m) = false)
    (hrange : ∀ a b, p (ScanEvent.range a b) = false) (cfg : ScanConfig) :
    List.countP p (rangeEvents cfg) = 0 := by
  simp [rangeEvents, List.countP_cons, hlog, hrange]

theorem scanLoop_allMiss (f : Nat → String → Except String HttpResponse)
    (cfg : ScanConfig) (hmiss : ∀ i e, outcomeHit (f i e) = false) :
    ∀ (l : List Nat) (fd cons : Nat), cons < cfg.max_mis → cfg.max_mis ≤ cons + l.length →
    ∃ evs, scanLoop f cfg l fd cons =
        evs ++ ScanEvent.stopped (Nat.repr cfg.max_mis ++ " consecutive misses") ::
          closingEvents fd ∧
      List.countP isCheckingEv evs = (cfg.max_mis - cons) * cfg.exts.length ∧
      List.countP isStoppedEv evs = 0 ∧ List.countP isHitEv evs = 0 := by
  intro l
  induction l with
  | nil =>
    intro fd cons h1 h2
    simp at h2
    omega
  | cons i rest ih =>
    intro fd cons h1 h2
    have hrow2 : (scanExts f cfg i cfg.exts fd false).2.2 = false := by
      rw [scanExts_hitThis]
      simp [hmiss]
    have hrow1 : (scanExts f cfg i cfg.exts fd false).2.1 = fd := by
      rw [scanExts_found]
      simp [hmiss]
    simp only [scanLoop, hrow2, Bool.false_eq_true, if_false]
    by_cases hstop : cfg.max_mis ≤ cons + 1
    · rw [if_pos hstop, hrow1]
      refine ⟨(scanExts f cfg i cfg.exts fd false).1, rfl, ?_, ?_, ?_⟩
      · rw [scanExts_countChecking]
        have : cfg.max_mis - cons = 1 := by omega
        rw [this]
        omega
      · rw [scanExts_countStopped]
      · rw [scanExts_countHit]
        simp [hmiss]
    · rw [if_neg hstop]
      obtain ⟨evs, heq, hc, hs, hh⟩ := ih fd (cons + 1) (by omega)
        (by simp at h2 ⊢; omega)
      rw [hrow1, heq]
      refine ⟨(scanExts f cfg i cfg.exts fd false).1 ++ evs, by rw [List.append_assoc], ?_, ?_, ?_⟩
      · rw [List.countP_append, scanExts_countChecking, hc]
        have hmc : cfg.max_mis - cons = (cfg.max_mis - (cons + 1)) + 1 := by omega
        rw [hmc, Nat.succ_mul]
        omega
      · rw [List.countP_append, scanExts_countStopped, hs]
      · rw [List.countP_append, scanExts_countHit, hh]
        simp [hmiss]


theorem patchMiss_outcome (f : Nat → String → Except String HttpResponse) (i : Nat)
    (e : String) : outcomeHit (patchMiss f i e) = outcomeHit (f i e) := by
  rcases hfe : f i e with m | r <;> simp only [patchMiss, hfe, outcomeHit]
  decide

theorem scanExts_filter_congr (f g : Nat → String → Except String HttpResponse)
    (cfg : ScanConfig) (i : Nat) (hfg : ∀ e, outcomeHit (f i e) = outcomeHit (g i e)) :
    ∀ (l : List String) (fd : Nat) (b : Bool),
    (scanExts f cfg i l fd b).1.filter (fun ev => !isLogEv ev) =
        (scanExts g cfg i l fd b).1.filter (fun ev => !isLogEv ev) ∧
      (scanExts f cfg i l fd b).2.1 = (scanExts g cfg i l fd b).2.1 ∧
      (scanExts f cfg i l fd b).2.2 = (scanExts g cfg i l fd b).2.2 := by
  intro l
  induction l with
  | nil => intro fd b; exact ⟨rfl, rfl, rfl⟩
  | cons e rest ih =>
    intro fd b
    simp only [scanExts, List.filter_append]
    rw [probeStep_filter f, probeStep_filter g, probeStep_hit f, probeStep_hit g, hfg e]
    obtain ⟨h1, h2, h3⟩ := ih (if outcomeHit (g i e) then fd + 1 else fd)
      (b || outcomeHit (g i e))
    refine ⟨?_, h2, h3⟩
    rw [h1]

theorem scanLoop_filter_congr (f g : Nat → String → Except String HttpResponse)
    (cfg : ScanConfig) (hfg : ∀ i e, outcomeHit (f i e) = outcomeHit (g i e)) :
    ∀ (l : List Nat) (fd cons : Nat),
    (scanLoop f cfg l fd cons).filter (fun ev => !isLogEv ev) =
      (scanLoop g cfg l fd cons).filter (fun ev => !isLogEv ev) := by
  intro l
  induction l with
  | nil => intro fd cons; rfl
  | cons i rest ih =>
    intro fd cons
    obtain ⟨h1, h2, h3⟩ := scanExts_filter_congr f g cfg i (hfg i) cfg.exts fd false
    simp only [scanLoop, h2, h3]
    split_ifs <;> simp only [List.filter_append, h1, h2, ih]


/-- C3: the Direct Fetch classifier: a 200/206 response with HTML-like
normalized content-type is a miss regardless of size; a 200/206 non-HTML
response with content-length below 10,000 is a miss; with content-length
at or above 10,000 or absent it is a hit; content-length 9,999 is never a
hit; content-length 10,000 with content-type video/mp4 is a hit. -/
theorem claim_C3 :
    (∀ st ct cl, (st = 200 ∨ st = 206) → normalizeCT ct ∈ HTML_CTYPES →
      isHit ⟨st, ct, cl⟩ = false) ∧
    (∀ st ct n, (st = 200 ∨ st = 206) → normalizeCT ct ∉ HTML_CTYPES → n < 10000 →
      isHit ⟨st, ct, some n⟩ = false) ∧
    (∀ st ct n, (st = 200 ∨ st = 206) → normalizeCT ct ∉ HTML_CTYPES → 10000 ≤ n →
      isHit ⟨st, ct, some n⟩ = true) ∧
    (∀ st ct, (st = 200 ∨ st = 206) → normalizeCT ct ∉ HTML_CTYPES →
      isHit ⟨st, ct, none⟩ = true) ∧
    (∀ st ct, isHit ⟨st, ct, some 9999⟩ = false) ∧
    isHit ⟨200, "video/mp4", some 10000⟩ = true := by
  refine ⟨?_, ?_, ?_, ?_, ?_, ?_⟩
  · intro st ct cl hst hct
    simp [isHit, hst, hct]
  · intro st ct n hst hct hn
    simp [isHit, clSmall, hst, hct, hn]
  · intro st ct n hst hct hn
    simp [isHit, clSmall, hst, hct, Nat.not_lt.mpr hn]
  · intro st ct hst hct
    simp [isHit, clSmall, hst, hct]
  · intro st ct
    simp only [isHit, clSmall]
    split_ifs <;> simp_all
  · decide

/-- C3 witness: concrete instances of the three hypothesis-bearing
boundary cases. -/
theorem claim_C3_witness :
    isHit ⟨200, "text/html", some 999999⟩ = false ∧
      isHit ⟨200, "video/mp4", some 9999⟩ = false ∧
      isHit ⟨206, "video/mp4", none⟩ = true :=
  ⟨claim_C3.1 200 "text/html" (some 999999) (Or.inl rfl) (by decide),
   claim_C3.2.1 200 "video/mp4" 9999 (Or.inl rfl) (by decide) (by decide),
   claim_C3.2.2.2.1 206 "video/mp4" (Or.inr rfl) (by decide)⟩

/-- C10: in every Direct Fetch scan stream the hit counter is consistent:
each `checking` frame carries the number of `hit` frames emitted before
it, the n-th `hit` frame carries n, and the `done` frame carries the total
number of `hit` frames. -/
theorem claim_C10 (f : Nat → String → Except String HttpResponse) (cfg : ScanConfig) :
    consistentFrom 0 (runDirectScan f cfg) = true := by
  simp only [runDirectScan, rangeEvents, List.cons_append, List.nil_append, consistentFrom]
  exact scanLoop_consistent f cfg (List.range cfg.max_n) 0 0

/-- C1 (amended): every Direct Fetch scan stream that the loop produces
without an escaping exception contains exactly one `done` frame, which is
its last event, and at most one `stopped` frame — on the early-stop path
both a `stopped` and the final `done` are emitted, the `stopped` first.
When an exception escapes the loop, the `generate` wrapper appends only a
warning log: no terminal event is added. -/
theorem claim_C1_amended :
    (∀ (f : Nat → String → Except String HttpResponse) (cfg : ScanConfig),
      List.countP isDoneEv (runDirectScan f cfg) = 1 ∧
      List.countP isStoppedEv (runDirectScan f cfg) ≤ 1 ∧
      ∃ n, (runDirectScan f cfg).getLast? = some (ScanEvent.done n)) ∧
    (∀ (evs : List ScanEvent) (exn : Option PyExn),
      List.countP isDoneEv (generateWrap (evs, exn)) = List.countP isDoneEv evs ∧
      List.countP isStoppedEv (generateWrap (evs, exn)) = List.countP isStoppedEv evs) := by
  constructor
  · intro f cfg
    refine ⟨?_, ?_, ?_⟩
    · rw [runDirectScan, List.countP_append,
        range_count_nonLog isDoneEv (fun _ => rfl) (fun _ _ => rfl) cfg,
        scanLoop_countDone]
    · rw [runDirectScan, List.countP_append,
        range_count_nonLog isStoppedEv (fun _ => rfl) (fun _ _ => rfl) cfg]
      simpa using scanLoop_countStopped_le f cfg (List.range cfg.max_n) 0 0
    · obtain ⟨pre, n, h⟩ := scanLoop_ends_closing f cfg (List.range cfg.max_n) 0 0
      refine ⟨n, ?_⟩
      rw [runDirectScan, h, ← List.append_assoc]
      simp [closingEvents]
  · intro evs exn
    rcases exn with _ | e
    · exact ⟨rfl, rfl⟩
    · rcases e with _ | m <;>
        simp [generateWrap, List.countP_append, isDoneEv, isStoppedEv, List.countP_cons]

/-- C1 counterexample: an always-failing probe with `max_mis = 1` makes
the loop break with a `stopped` frame, after which lines 428..430 of
server.py still run, so the same stream also carries a `done` frame — the
early-stop exit path emits both terminal events, not exactly one. -/
theorem claim_C1_counterexample :
    List.countP isStoppedEv
        (runDirectScan (fun _ _ => Except.error "x") ⟨"http://h/", "f", 3, 0, 2, 1, false, [".mp4"]⟩) = 1 ∧
      List.countP isDoneEv
        (runDirectScan (fun _ _ => Except.error "x") ⟨"http://h/", "f", 3, 0, 2, 1, false, [".mp4"]⟩) = 1 ∧
      1 < List.countP (fun ev => isStoppedEv ev || isDoneEv ev)
        (runDirectScan (fun _ _ => Except.error "x") ⟨"http://h/", "f", 3, 0, 2, 1, false, [".mp4"]⟩) := by
  decide

/-- C9: the scan stream always ends through the closing events — the
`browser.close()` of line 428 of server.py precedes the final `done` on
every loop exit — and for every exit kind of the body, normal or
exceptional, no browser remains open after the `with sync_playwright()`
block. -/
theorem claim_C9 :
    (∀ (f : Nat → String → Except String HttpResponse) (cfg : ScanConfig),
      ∃ pre n, runDirectScan f cfg = pre ++ closingEvents n) ∧
    (∀ e : ScanExit, browserOpenAfterWith (browserOpenAtBodyExit e) = false) := by
  constructor
  · intro f cfg
    obtain ⟨pre, n, h⟩ := scanLoop_ends_closing f cfg (List.range cfg.max_n) 0 0
    exact ⟨rangeEvents cfg ++ pre, n, by rw [runDirectScan, h, List.append_assoc]⟩
  · intro e
    rfl

/-- C8 counterexample: the first and second probes present the same
identity (the context's fixed `USER_AGENTS[0]`), while the round-robin
cycle the claim describes would present distinct successive identities —
the probe identity is not drawn from the rotating cycle. -/
theorem claim_C8_counterexample :
    probeIdentity 0 = probeIdentity 1 ∧ probeIdentity 1 ≠ agentCycleAt 1 ∧
      agentCycleAt 0 ≠ agentCycleAt 1 := by
  refine ⟨rfl, ?_, ?_⟩ <;> decide

/-- C8 (amended): the rotating pool and the `itertools.cycle` over it
exist, but the cycle is never consumed; every probe presents the one fixed
identity `USER_AGENTS[0]` — the identity the cycle would yield first. -/
theorem claim_C8_amended :
    ∀ j k : Nat, probeIdentity j = probeIdentity k ∧ probeIdentity j = agentCycleAt 0 := by
  intro j k
  exact ⟨rfl, rfl⟩

/-- C6: when the browser launch fails with a missing-binary error and the
managed install also fails, the whole stream is three warning logs: the
code does not fall back to scanning — no `range`, `checking`, `stopped` or
`done` frame is ever produced, contradicting its own "continuing anyway"
log. -/
theorem claim_C6_bug :
    generateStream true "B"
        (Except.error "browser executable doesn't exist at path")
        (Except.error "install failed") (Except.ok ()) []
        (fun _ _ => Except.error "x") ⟨"http://h/", "f", 3, 0, 2, 1, false, [".mp4"]⟩ =
      [ScanEvent.log "🌐 Chromium missing at B. Attempting install...",
       ScanEvent.log "⚠ Browser auto-install failed: install failed",
       ScanEvent.log "⚠ Browser error: install failed — continuing anyway."] ∧
    ∀ ev ∈ generateStream true "B"
        (Except.error "browser executable doesn't exist at path")
        (Except.error "install failed") (Except.ok ()) []
        (fun _ _ => Except.error "x") ⟨"http://h/", "f", 3, 0, 2, 1, false, [".mp4"]⟩,
      isLogEv ev = true := by
  constructor <;> decide

/-- C7: a probe exception is caught inside the loop body and behaves
exactly as a plain miss: replacing every exception of the environment by a
404 response leaves the non-log event stream unchanged, the scan still
terminates with its one `done` frame, and the failing probe itself emits
only its `checking` frame plus (for the first three identifiers) a
failure log, with no hit. -/
theorem claim_C7 (f : Nat → String → Except String HttpResponse) (cfg : ScanConfig) :
    ((runDirectScan f cfg).filter (fun ev => !isLogEv ev) =
      (runDirectScan (patchMiss f) cfg).filter (fun ev => !isLogEv ev)) ∧
    List.countP isDoneEv (runDirectScan f cfg) = 1 ∧
    (∀ i fd e m, f i e = Except.error m →
      (probeStep f cfg i fd e).2 = false ∧
      (probeStep f cfg i fd e).1 =
        ScanEvent.checking (urlOf cfg i e) fd i cfg.max_n ::
          (if i < 3 then [ScanEvent.log ("   ↳ Request failure: " ++ m)] else [])) := by
  refine ⟨?_, ?_, ?_⟩
  · rw [runDirectScan, runDirectScan, List.filter_append, List.filter_append,
      scanLoop_filter_congr f (patchMiss f) cfg (fun i e => (patchMiss_outcome f i e).symm)]
  · rw [runDirectScan, List.countP_append,
      range_count_nonLog isDoneEv (fun _ => rfl) (fun _ _ => rfl) cfg,
      scanLoop_countDone]
  · intro i fd e m hfe
    constructor
    · rw [probeStep_hit, hfe]
      rfl
    · simp only [probeStep, hfe, urlOf]

/-- C7 witness: a concrete always-raising probe is counted as a miss. -/
theorem claim_C7_witness :
    (probeStep (fun _ _ => Except.error "t") ⟨"h", "f", 1, 0, 1, 1, false, [""]⟩ 0 0 "").2 =
      false :=
  ((claim_C7 (fun _ _ => Except.error "t")
      ⟨"h", "f", 1, 0, 1, 1, false, [""]⟩).2.2 0 0 "" "t" rfl).1


theorem scanExts_hitThis_missRow (f : Nat → String → Except String HttpResponse)
    (cfg : ScanConfig) (i fd : Nat) :
    (scanExts f cfg i cfg.exts fd false).2.2 = !missRow f cfg i := by
  rw [scanExts_hitThis, missRow]
  simp

theorem scanLoop_countStopped_eq (f : Nat → String → Except String HttpResponse)
    (cfg : ScanConfig) : ∀ (l : List Nat) (fd cons : Nat),
    List.countP isStoppedEv (scanLoop f cfg l fd cons) =
      if specStops f cfg l cons then 1 else 0 := by
  intro l
  induction l with
  | nil => intro fd cons; simp [scanLoop, specStops, closing_countStopped]
  | cons i rest ih =>
    intro fd cons
    simp only [scanLoop, specStops, scanExts_hitThis_missRow]
    by_cases hmr : missRow f cfg i = true
    · by_cases hstop : cfg.max_mis ≤ cons + 1
      · simp [hmr, hstop, List.countP_append, List.countP_cons, scanExts_countStopped,
          closing_countStopped, isStoppedEv]
      · simp [hmr, hstop, List.countP_append, scanExts_countStopped, ih]
    · have hmr2 : missRow f cfg i = false := by simpa using hmr
      simp [hmr2, List.countP_append, scanExts_countStopped, ih]

theorem scanLoop_stopped_reason (f : Nat → String → Except String HttpResponse)
    (cfg : ScanConfig) : ∀ (l : List Nat) (fd cons : Nat) (s : String),
    ScanEvent.stopped s ∈ scanLoop f cfg l fd cons →
    s = Nat.repr cfg.max_mis ++ " consecutive misses" := by
  intro l
  induction l with
  | nil =>
    intro fd cons s hmem
    simp [scanLoop, closingEvents] at hmem
  | cons i rest ih =>
    intro fd cons s hmem
    have hrow : ∀ fd2, ScanEvent.stopped s ∉ (scanExts f cfg i cfg.exts fd2 false).1 := by
      intro fd2 hin
      have hz := scanExts_countStopped f cfg i cfg.exts fd2 false
      rw [List.countP_eq_zero] at hz
      exact (hz _ hin) rfl
    simp only [scanLoop] at hmem
    split_ifs at hmem
    · rcases List.mem_append.mp hmem with h | h
      · exact absurd h (hrow fd)
      · exact ih _ _ s h
    · rcases List.mem_append.mp hmem with h | h
      · exact absurd h (hrow fd)
      · rcases List.mem_cons.mp h with h2 | h2
        · injection h2
        · simp [closingEvents] at h2
    · rcases List.mem_append.mp hmem with h | h
      · exact absurd h (hrow fd)
      · exact ih _ _ s h

theorem specStops_iff_window (f : Nat → String → Except String HttpResponse)
    (cfg : ScanConfig) (hm : 0 < cfg.max_mis) :
    ∀ (n s cons : Nat), cons < cfg.max_mis →
    (specStops f cfg (List.range' s n) cons = true ↔
      ((cfg.max_mis - cons ≤ n ∧
          ∀ k < cfg.max_mis - cons, missRow f cfg (s + k) = true) ∨
        ∃ j, j + cfg.max_mis ≤ n ∧ ∀ k < cfg.max_mis, missRow f cfg (s + j + k) = true)) := by
  intro n
  induction n with
  | zero =>
    intro s cons hc
    constructor
    · intro h
      rw [show List.range' s 0 = [] from rfl] at h
      simp [specStops] at h
    · rintro (⟨h1, _⟩ | ⟨j, hj, _⟩) <;> omega
  | succ n ihn =>
    intro s cons hc
    rw [show List.range' s (n + 1) = s :: List.range' (s + 1) n from rfl]
    by_cases hmr : missRow f cfg s = true
    · by_cases hstop : cfg.max_mis ≤ cons + 1
      · have heq : specStops f cfg (s :: List.range' (s + 1) n) cons = true := by
          simp [specStops, hmr, hstop]
        rw [heq]
        constructor
        · intro _
          left
          have h1 : cfg.max_mis - cons = 1 := by omega
          rw [h1]
          refine ⟨by omega, fun k hk => ?_⟩
          interval_cases k
          simpa using hmr
        · intro _
          rfl
      · have heq : specStops f cfg (s :: List.range' (s + 1) n) cons =
            specStops f cfg (List.range' (s + 1) n) (cons + 1) := by
          simp [specStops, hmr, hstop]
        rw [heq, ihn (s + 1) (cons + 1) (by omega)]
        constructor
        · rintro (⟨h1, h2⟩ | ⟨j, hj, hw⟩)
          · left
            refine ⟨by omega, fun k hk => ?_⟩
            rcases Nat.eq_zero_or_pos k with rfl | hk0
            · simpa using hmr
            · have := h2 (k - 1) (by omega)
              have hsk : s + 1 + (k - 1) = s + k := by omega
              rwa [hsk] at this
          · right
            refine ⟨j + 1, by omega, fun k hk => ?_⟩
            have := hw k hk
            have hs : s + 1 + j + k = s + (j + 1) + k := by omega
            rwa [hs] at this
        · rintro (⟨h1, h2⟩ | ⟨j, hj, hw⟩)
          · left
            refine ⟨by omega, fun k hk => ?_⟩
            have := h2 (k + 1) (by omega)
            have hs : s + (k + 1) = s + 1 + k := by omega
            rwa [hs] at this
          · rcases Nat.eq_zero_or_pos j with rfl | hj0
            · left
              refine ⟨by omega, fun k hk => ?_⟩
              have := hw (k + 1) (by omega)
              have hs : s + 0 + (k + 1) = s + 1 + k := by omega
              rwa [hs] at this
            · right
              refine ⟨j - 1, by omega, fun k hk => ?_⟩
              have := hw k hk
              have hs : s + j + k = s + 1 + (j - 1) + k := by omega
              rwa [hs] at this
    · have hmr2 : missRow f cfg s = false := by simpa using hmr
      have heq : specStops f cfg (s :: List.range' (s + 1) n) cons =
          specStops f cfg (List.range' (s + 1) n) 0 := by
        simp [specStops, hmr2]
      rw [heq, ihn (s + 1) 0 hm]
      constructor
      · rintro (⟨h1, h2⟩ | ⟨j, hj, hw⟩)
        · right
          refine ⟨1, by omega, fun k hk => ?_⟩
          have := h2 k (by omega)
          have hs : s + 1 + k = s + 1 + k := rfl
          simpa using this
        · right
          refine ⟨j + 1, by omega, fun k hk => ?_⟩
          have := hw k hk
          have hs : s + 1 + j + k = s + (j + 1) + k := by omega
          rwa [hs] at this
      · rintro (⟨h1, h2⟩ | ⟨j, hj, hw⟩)
        · exfalso
          have := h2 0 (by omega)
          rw [show s + 0 = s from by omega, hmr2] at this
          cases this
        · rcases Nat.eq_zero_or_pos j with rfl | hj0
          · exfalso
            have := hw 0 hm
            rw [show s + 0 + 0 = s from by omega, hmr2] at this
            cases this
          · right
            refine ⟨j - 1, by omega, fun k hk => ?_⟩
            have := hw k hk
            have hs : s + j + k = s + 1 + (j - 1) + k := by omega
            rwa [hs] at this

theorem specStops_iff_window0 (f : Nat → String → Except String HttpResponse)
    (cfg : ScanConfig) (hm : 0 < cfg.max_mis) (n : Nat) :
    (specStops f cfg (List.range n) 0 = true ↔
      ∃ j, j + cfg.max_mis ≤ n ∧ ∀ k < cfg.max_mis, missRow f cfg (j + k) = true) := by
  rw [List.range_eq_range', specStops_iff_window f cfg hm n 0 0 hm]
  constructor
  · rintro (⟨h1, h2⟩ | ⟨j, hj, hw⟩)
    · refine ⟨0, by omega, fun k hk => ?_⟩
      simpa using h2 k (by omega)
    · refine ⟨j, hj, fun k hk => ?_⟩
      simpa using hw k hk
  · rintro ⟨j, hj, hw⟩
    right
    refine ⟨j, hj, fun k hk => ?_⟩
    simpa using hw k hk

/-- C4: the consecutive-miss counter of the scan loop follows the claimed
dynamics: a hit among a candidate's extensions resets it to 0, otherwise
it increments by 1, and the scan emits its `stopped` frame exactly when
the counter reaches `max_mis` — equivalently, exactly when the scanned
range contains `max_mis` consecutive all-miss identifiers (a hit in
between restarts the run).  Every `stopped` frame's reason cites
`max_mis`.  In particular, with an always-missing probe and
`max_mis ≤ max_n` the stream is the range preview, `max_mis * |exts|`
checking frames with no hit and no stop inside, the single `stopped`
frame, then the closing events with `found = 0` (with `max_mis = 5` and a
single extension: exactly 5 checking frames, then the stop citing 5). -/
theorem claim_C4 (f : Nat → String → Except String HttpResponse) (cfg : ScanConfig)
    (hpos : 0 < cfg.max_mis) :
    (List.countP isStoppedEv (runDirectScan f cfg) =
      if specStops f cfg (List.range cfg.max_n) 0 then 1 else 0) ∧
    (List.countP isStoppedEv (runDirectScan f cfg) = 1 ↔
      ∃ j, j + cfg.max_mis ≤ cfg.max_n ∧
        ∀ k < cfg.max_mis, missRow f cfg (j + k) = true) ∧
    (∀ s, ScanEvent.stopped s ∈ runDirectScan f cfg →
      s = Nat.repr cfg.max_mis ++ " consecutive misses") ∧
    ((∀ i e, outcomeHit (f i e) = false) → cfg.max_mis ≤ cfg.max_n →
      ∃ evs, runDirectScan f cfg =
          rangeEvents cfg ++ evs ++
            ScanEvent.stopped (Nat.repr cfg.max_mis ++ " consecutive misses") ::
              closingEvents 0 ∧
        List.countP isCheckingEv evs = cfg.max_mis * cfg.exts.length ∧
        List.countP isStoppedEv evs = 0 ∧ List.countP isHitEv evs = 0) := by
  have hcount : List.countP isStoppedEv (runDirectScan f cfg) =
      if specStops f cfg (List.range cfg.max_n) 0 then 1 else 0 := by
    rw [runDirectScan, List.countP_append,
      range_count_nonLog isStoppedEv (fun _ => rfl) (fun _ _ => rfl) cfg,
      scanLoop_countStopped_eq]
    omega
  refine ⟨hcount, ?_, ?_, ?_⟩
  · rw [hcount, ← specStops_iff_window0 f cfg hpos cfg.max_n]
    by_cases hs : specStops f cfg (List.range cfg.max_n) 0 = true <;> simp [hs]
  · intro s hmem
    rw [runDirectScan] at hmem
    rcases List.mem_append.mp hmem with h | h
    · simp [rangeEvents] at h
    · exact scanLoop_stopped_reason f cfg _ _ _ s h
  · intro hmiss hrange
    obtain ⟨evs, heq, hc, hs, hh⟩ := scanLoop_allMiss f cfg hmiss (List.range cfg.max_n) 0 0
      hpos (by simpa using hrange)
    refine ⟨evs, ?_, ?_, hs, hh⟩
    · rw [runDirectScan, heq, List.append_assoc]
    · simpa using hc

/-- C4 witness: the same probe (a hit exactly at identifier 2, misses
elsewhere) run over two ranges with `max_mis = 3`.  Over `max_n = 6` the
misses at 3, 4, 5 form a 3-long all-miss window, so the scan stops; over
`max_n = 4` the hit at 2 resets the counter and no 3-long window exists,
so the scan does not stop — although rows 0, 1, 3 miss, which would reach
the threshold if a hit merely left the counter unchanged.  Also the
always-miss instance with `max_mis = 5` and one extension: exactly 5
checking frames, then the stop citing 5. -/
theorem claim_C4_witness :
    List.countP isStoppedEv
        (runDirectScan
          (fun (i : Nat) (_ : String) =>
            if i = 2 then
              (Except.ok ⟨200, "video/mp4", some 20000⟩ : Except String HttpResponse)
            else Except.error "m")
          ⟨"http://h/", "f", 3, 0, 6, 3, false, [".mp4"]⟩) = 1 ∧
    List.countP isStoppedEv
        (runDirectScan
          (fun (i : Nat) (_ : String) =>
            if i = 2 then
              (Except.ok ⟨200, "video/mp4", some 20000⟩ : Except String HttpResponse)
            else Except.error "m")
          ⟨"http://h/", "f", 3, 0, 4, 3, false, [".mp4"]⟩) = 0 ∧
    ∃ evs, runDirectScan
          (fun (_ : Nat) (_ : String) => (Except.error "x" : Except String HttpResponse))
          ⟨"http://h/", "f", 3, 0, 8, 5, false, [".mp4"]⟩ =
        rangeEvents ⟨"http://h/", "f", 3, 0, 8, 5, false, [".mp4"]⟩ ++ evs ++
          ScanEvent.stopped "5 consecutive misses" :: closingEvents 0 ∧
      List.countP isCheckingEv evs = 5 ∧
      List.countP isStoppedEv evs = 0 ∧ List.countP isHitEv evs = 0 := by
  refine ⟨?_, ?_, ?_⟩
  · have h := (claim_C4
      (fun (i : Nat) (_ : String) =>
        if i = 2 then
          (Except.ok ⟨200, "video/mp4", some 20000⟩ : Except String HttpResponse)
        else Except.error "m")
      ⟨"http://h/", "f", 3, 0, 6, 3, false, [".mp4"]⟩ (by decide)).2.1
    refine h.mpr ⟨3, by decide, ?_⟩
    decide
  · have h := (claim_C4
      (fun (i : Nat) (_ : String) =>
        if i = 2 then
          (Except.ok ⟨200, "video/mp4", some 20000⟩ : Except String HttpResponse)
        else Except.error "m")
      ⟨"http://h/", "f", 3, 0, 4, 3, false, [".mp4"]⟩ (by decide)).1
    rw [h]
    have hs : specStops
        (fun (i : Nat) (_ : String) =>
          if i = 2 then
            (Except.ok ⟨200, "video/mp4", some 20000⟩ : Except String HttpResponse)
          else Except.error "m")
        ⟨"http://h/", "f", 3, 0, 4, 3, false, [".mp4"]⟩ (List.range 4) 0 = false := by
      decide
    simp [hs]
  · obtain ⟨evs, heq, hc, hs, hh⟩ := (claim_C4
      (fun (_ : Nat) (_ : String) => (Except.error "x" : Except String HttpResponse))
      ⟨"http://h/", "f", 3, 0, 8, 5, false, [".mp4"]⟩ (by decide)).2.2.2
      (fun i e => rfl) (by decide)
    have hstr : Nat.repr 5 ++ " consecutive misses" = "5 consecutive misses" := by decide
    rw [hstr] at heq
    exact ⟨evs, heq, by simpa using hc, hs, hh⟩

/-- C5: with a single extension and a probe that hits exactly at
identifiers 2 and 3 out of `max_n = 10`, `max_mis = 10`, the scan never
stops early, emits exactly 2 hit frames, and ends through the closing
events with `found = 2` (the `done` frame carries 2). -/
theorem claim_C5 (f : Nat → String → Except String HttpResponse) (cfg : ScanConfig)
    (e : String) (hexts : cfg.exts = [e]) (hmaxn : cfg.max_n = 10) (hmm : cfg.max_mis = 10)
    (hpat : ∀ (i : Nat) (x : String), outcomeHit (f i x) = decide (i = 2 ∨ i = 3)) :
    List.countP isHitEv (runDirectScan f cfg) = 2 ∧
    List.countP isStoppedEv (runDirectScan f cfg) = 0 ∧
    List.countP isDoneEv (runDirectScan f cfg) = 1 ∧
    ∃ pre, runDirectScan f cfg = pre ++ closingEvents 2 := by
  have hbit : ∀ (i fd : Nat), (scanExts f cfg i cfg.exts fd false).2.2 =
      decide (i = 2 ∨ i = 3) := by
    intro i fd
    rw [scanExts_hitThis, hexts]
    simp [hpat]
  have hfd : ∀ (i fd : Nat), (scanExts f cfg i cfg.exts fd false).2.1 =
      fd + (if i = 2 ∨ i = 3 then 1 else 0) := by
    intro i fd
    rw [scanExts_found, hexts]
    simp [List.countP_cons, hpat]
  have hr : List.range 10 = [0, 1, 2, 3, 4, 5, 6, 7, 8, 9] := rfl
  have hloop : scanLoop f cfg [0, 1, 2, 3, 4, 5, 6, 7, 8, 9] 0 0 =
      (scanExts f cfg 0 cfg.exts 0 false).1 ++ ((scanExts f cfg 1 cfg.exts 0 false).1 ++
      ((scanExts f cfg 2 cfg.exts 0 false).1 ++ ((scanExts f cfg 3 cfg.exts 1 false).1 ++
      ((scanExts f cfg 4 cfg.exts 2 false).1 ++ ((scanExts f cfg 5 cfg.exts 2 false).1 ++
      ((scanExts f cfg 6 cfg.exts 2 false).1 ++ ((scanExts f cfg 7 cfg.exts 2 false).1 ++
      ((scanExts f cfg 8 cfg.exts 2 false).1 ++ ((scanExts f cfg 9 cfg.exts 2 false).1 ++
      closingEvents 2))))))))) := by
    simp only [scanLoop, hbit, hfd, hmm]
    norm_num
  have hcount : ∀ (i fd : Nat), List.countP isHitEv (scanExts f cfg i cfg.exts fd false).1 =
      if i = 2 ∨ i = 3 then 1 else 0 := by
    intro i fd
    rw [scanExts_countHit, hexts]
    simp [List.countP_cons, hpat]
  refine ⟨?_, ?_, ?_, ?_⟩
  · rw [runDirectScan, hmaxn, hr, hloop]
    simp only [List.countP_append, hcount,
      range_count_nonLog isHitEv (fun _ => rfl) (fun _ _ => rfl) cfg, closing_countHit]
    norm_num
  · rw [runDirectScan, hmaxn, hr, hloop]
    simp only [List.countP_append, scanExts_countStopped,
      range_count_nonLog isStoppedEv (fun _ => rfl) (fun _ _ => rfl) cfg, closing_countStopped]
  · rw [runDirectScan, hmaxn, hr, hloop]
    simp only [List.countP_append, scanExts_countDone,
      range_count_nonLog isDoneEv (fun _ => rfl) (fun _ _ => rfl) cfg, closing_countDone]
  · rw [runDirectScan, hmaxn, hr, hloop]
    simp only [← List.append_assoc]
    exact ⟨_, rfl⟩


/-- C5 witness: a concrete probe hitting exactly at identifiers 2 and 3. -/
theorem claim_C5_witness :
    List.countP isHitEv
        (runDirectScan
          (fun (i : Nat) (_ : String) =>
            if i = 2 ∨ i = 3 then
              (Except.ok ⟨200, "video/mp4", some 20000⟩ : Except String HttpResponse)
            else Except.error "m")
          ⟨"http://h/", "f", 3, 0, 10, 10, false, [".mp4"]⟩) = 2 ∧
    List.countP isStoppedEv
        (runDirectScan
          (fun (i : Nat) (_ : String) =>
            if i = 2 ∨ i = 3 then
              (Except.ok ⟨200, "video/mp4", some 20000⟩ : Except String HttpResponse)
            else Except.error "m")
          ⟨"http://h/", "f", 3, 0, 10, 10, false, [".mp4"]⟩) = 0 ∧
    ∃ pre, runDirectScan
          (fun (i : Nat) (_ : String) =>
            if i = 2 ∨ i = 3 then
              (Except.ok ⟨200, "video/mp4", some 20000⟩ : Except String HttpResponse)
            else Except.error "m")
          ⟨"http://h/", "f", 3, 0, 10, 10, false, [".mp4"]⟩ = pre ++ closingEvents 2 := by
  have h := claim_C5
    (fun (i : Nat) (_ : String) =>
      if i = 2 ∨ i = 3 then
        (Except.ok ⟨200, "video/mp4", some 20000⟩ : Except String HttpResponse)
      else Except.error "m")
    ⟨"http://h/", "f", 3, 0, 10, 10, false, [".mp4"]⟩ ".mp4" rfl rfl rfl ?_
  · exact ⟨h.1, h.2.1, h.2.2.2⟩
  · intro i x
    by_cases hio : i = 2 ∨ i = 3
    · simp only [if_pos hio, decide_eq_true_eq]
      simp [hio]
      decide
    · simp only [if_neg hio]
      simp [hio]
      rfl

end TruthSeeker
